import Mathlib

/-!
Verification of the incremental comment-collection engine of the
rednote-agent repository (file `src/tools/rednoteTools.ts`, class
`RedNoteTools`, plus `src/tools/noteDetail.ts`).

The TypeScript source is shallowly embedded below:

* JavaScript strings are Lean `String`s; JS `String.prototype.trim`,
  `includes`, `split(/\s+/)` and the concrete regular expressions used by the
  source are implemented over `String.data` (`List Char`), following the
  leftmost-match / greedy-with-backtracking semantics of JS regexes.
* DOM reads performed inside `page.evaluate` are modelled by explicit record
  types (`NodeDom`, `ParentBlockDom`, `ContainerInfo`, …) holding exactly the
  values the source reads from the page (text contents, `src` attributes,
  overflow styles, scroll offsets).
* The `while (true)` collection loop of `scrollAndCollectAllComments` is
  modelled as a step function `loopIter` over an iteration-indexed environment
  `Nat → EnvStep` describing what the page presents at each iteration, and a
  fuel-indexed runner `runLoop` (`none` = the loop is still running after the
  given number of iterations).
* `Date`-dependent computations (`toISOString`, calendar arithmetic) are
  abstracted as environment records (`DateEnv`, `PublishEnv`) supplying the
  formatted result of each such computation; the string-analysis logic, which
  is what the claims are about, is embedded exactly.
-/

/-! ## JS string primitives used by the source -/

/-- JS whitespace test (the set matched by `\s` in regexes, split on by
`split(/\s+/)`, and stripped by `String.prototype.trim`): TAB, LF, VT, FF,
CR, space, NBSP, the Unicode space separators U+1680, U+2000-U+200A, U+202F,
U+205F, U+3000, the line/paragraph separators U+2028/U+2029, and the BOM
U+FEFF. -/
def isWsJS (c : Char) : Bool :=
  let n := c.toNat
  (0x09 ≤ n && n ≤ 0x0d) || n = 0x20 || n = 0xa0 || n = 0x1680 ||
  (0x2000 ≤ n && n ≤ 0x200a) || n = 0x2028 || n = 0x2029 || n = 0x202f ||
  n = 0x205f || n = 0x3000 || n = 0xfeff

/-- Check that `pat` is a prefix of `l` (used for literal substring search). -/
def isPrefixList : List Char → List Char → Bool
  | [], _ => true
  | _ :: _, [] => false
  | p :: ps, c :: cs => p = c && isPrefixList ps cs

/-- JS `haystack.includes(needle)`: `needle` occurs contiguously in
`haystack`. -/
def containsList (needle : List Char) : List Char → Bool
  | [] => isPrefixList needle []
  | c :: cs => isPrefixList needle (c :: cs) || containsList needle cs

/-- JS `s.includes(sub)` on Lean strings. -/
def containsSub (s sub : String) : Bool :=
  containsList sub.data s.data

/-- JS `String.prototype.trim` (drop leading and trailing whitespace),
implemented over the character list so that it evaluates in the kernel. -/
def jsTrim (s : String) : String :=
  String.mk (((s.data.dropWhile isWsJS).reverse.dropWhile isWsJS).reverse)

/-- Digit characters extracted by `text.replace(/[^\d]/g, '')`. -/
def digitsOf (s : String) : List Char :=
  s.data.filter Char.isDigit

/-- Numeric value of a digit character. -/
def digitVal (c : Char) : Nat := c.toNat - '0'.toNat

/-- `parseInt` on a non-empty all-digit string. -/
def natOfDigits (ds : List Char) : Nat :=
  ds.foldl (fun n c => n * 10 + digitVal c) 0

/-- `parseInt(text.replace(/[^\d]/g, '')) || 0`: strip non-digits, parse,
defaulting to `0` when no digit remains (`parseInt('')` is `NaN`). -/
def parseDigitsOr0 (s : String) : Nat :=
  match digitsOf s with
  | [] => 0
  | ds => natOfDigits ds

/-- Nat to decimal string (for template literals such as
``${currentYear}-...``). -/
def natToStr (n : Nat) : String := Nat.repr n

/-- JS `String(x).padStart(2, '0')` applied to a parsed number. -/
def pad2 (n : Nat) : String :=
  if n < 10 then "0" ++ natToStr n else natToStr n

/-! ## Comment data model (`Comment` interface of `rednoteTools.ts`) -/

/-- A depth-1 reply as built by the snapshot extractor (source builds reply
objects without a `replies` field). -/
structure Reply where
  author : String
  content : String
  likes : Nat
  time : String
deriving DecidableEq, Repr

/-- A top-level comment record: `{ author, content, likes, time, replies }`. -/
structure Comment where
  author : String
  content : String
  likes : Nat
  time : String
  replies : List Reply
deriving DecidableEq, Repr

/-- The identity-triple comparison used by the dedup filter:
`existing.author === comment.author && existing.content === comment.content
&& existing.time === comment.time`. -/
def tripleEqB (a b : Comment) : Bool :=
  (a.author == b.author) && (a.content == b.content) && (a.time == b.time)

/-- `allComments.some(existing => ...)`: the identity triple of `c` already
occurs in `acc`. -/
def tripleMemB (acc : List Comment) (c : Comment) : Bool :=
  acc.any (fun e => tripleEqB e c)

/-- One merge step of `scrollAndCollectAllComments`:
`newComments = currentComments.filter(c => !allComments.some(sameTriple))`
followed by `allComments = [...newComments, ...allComments]`. -/
def mergeStep (acc snap : List Comment) : List Comment :=
  snap.filter (fun c => !(tripleMemB acc c)) ++ acc

/-- Total collected count: `reduce((sum, c) => sum + 1 + c.replies.length, 0)`
(top-level records plus all their replies). -/
def countTotal (acc : List Comment) : Nat :=
  acc.foldl (fun s c => s + 1 + c.replies.length) 0

/-- Internal duplicate-freedom of a comment list with respect to the identity
triple: no element's triple reappears later in the list. -/
def noDupTriplesB : List Comment → Bool
  | [] => true
  | c :: cs => !(cs.any (fun d => tripleEqB c d)) && noDupTriplesB cs

/-! ## Snapshot extractor (`page.evaluate` body of
`scrollAndCollectAllComments`, lines 603-683) -/

mutual
/-- Child nodes walked by `extractContentWithEmoji`: text nodes, `IMG`
elements carrying the `note-content-emoji` class (with optional `src`
attribute), and other element nodes (recursed into). The child list of an
element is encoded as the mutually inductive `ContentForest` so that the
rendering functions are structurally recursive. -/
inductive ContentNode where
  | text (s : String)
  | emojiImg (src : Option String)
  | element (children : ContentForest)
/-- A list of DOM child nodes (see `ContentNode`). -/
inductive ContentForest where
  | nil
  | cons (head : ContentNode) (tail : ContentForest)
end

mutual
/-- Rendering of one child node inside `extractContentWithEmoji`: text content
for text nodes, `[emoji:<src>]` (or `[emoji]` without `src`) for emoji images,
and the trimmed recursive rendering for other elements (each recursive
`extractContentWithEmoji` call trims its own result). -/
def renderNode : ContentNode → String
  | ContentNode.text s => s
  | ContentNode.emojiImg (some src) => "[emoji:" ++ src ++ "]"
  | ContentNode.emojiImg none => "[emoji]"
  | ContentNode.element cs => jsTrim (renderForest cs)
/-- The `childNodes.forEach` accumulation of `extractContentWithEmoji`. -/
def renderForest : ContentForest → String
  | ContentForest.nil => ""
  | ContentForest.cons n rest => renderNode n ++ renderForest rest
end

/-- Top-level `extractContentWithEmoji(contentNode)` call on an element's
child list (the source trims the concatenated result). -/
def extractContentWithEmoji (children : ContentForest) : String :=
  jsTrim (renderForest children)

/-- The data the extractor reads from one comment node
(`.comment-item`): query results for the author, content, like-count and
time selectors (`none` = selector matched nothing). -/
structure NodeDom where
  authorText : Option String
  contentChildren : Option ContentForest
  likesText : Option String
  timeText : Option String

/-- A reply node together with the `src` attributes of its
`.comment-picture img` descendants (`none` = image without `src`). -/
structure ReplyDom where
  node : NodeDom
  pictureSrcs : List (Option String)

/-- One `.parent-comment` block: the primary (non-`-sub`) comment node if
present, the block-level `.comment-picture img` sources (the source queries
pictures for the main comment on the whole block), and the `.comment-item-sub`
reply nodes. -/
structure ParentBlockDom where
  mainComment : Option NodeDom
  blockPictureSrcs : List (Option String)
  replyNodes : List ReplyDom

/-- Extracted text of a content element (`''` when the selector matched
nothing). -/
def contentTextOf (children : Option ContentForest) : String :=
  match children with
  | some cs => extractContentWithEmoji cs
  | none => ""

/-- Append `[image:<src>]` for every picture that has a `src` attribute
(the `pictureImgs.forEach` loop). -/
def appendImageMarkers (init : String) (pics : List (Option String)) : String :=
  pics.foldl (fun acc s? =>
    match s? with
    | some s => acc ++ "[image:" ++ s ++ "]"
    | none => acc) init

/-- The image markers alone (appended to the empty string). -/
def imageMarkers (pics : List (Option String)) : String :=
  appendImageMarkers "" pics

/-- Content construction for one node: extract text with emoji markers,
append image markers, and substitute the `'[图片评论]'` sentinel when the
result is blank but at least one picture element exists
(`if (!content.trim() && pictureImgs.length > 0)`). -/
def buildContent (children : Option ContentForest) (pics : List (Option String)) : String :=
  let content1 := appendImageMarkers (contentTextOf children) pics
  if jsTrim content1 = "" ∧ 0 < pics.length then "[图片评论]" else content1

/-- Author field: `querySelector(...)?.textContent?.trim() || ''`. -/
def authorOf (d : NodeDom) : String :=
  jsTrim (d.authorText.getD "")

/-- Time field: `querySelector(...)?.textContent?.trim() || ''`. -/
def timeOf (d : NodeDom) : String :=
  jsTrim (d.timeText.getD "")

/-- Like count: `parseInt(likesText.replace(/[^\d]/g, '')) || 0`, with the
text itself defaulting to `'0'`. -/
def likesOf (d : NodeDom) : Nat :=
  parseDigitsOr0 (d.likesText.getD "0")

/-- Extraction of one reply node (the `replyNodes` map), before the reply
filter. -/
def extractReply (r : ReplyDom) : Reply :=
  { author := authorOf r.node
    content := buildContent r.node.contentChildren r.pictureSrcs
    likes := likesOf r.node
    time := timeOf r.node }

/-- Extraction of one `.parent-comment` block: `null` when the primary node is
missing, otherwise the comment record with its filtered replies
(`.filter(reply => reply.author && reply.content)`). -/
def extractBlock (b : ParentBlockDom) : Option Comment :=
  match b.mainComment with
  | none => none
  | some mc =>
    some { author := authorOf mc
           content := buildContent mc.contentChildren b.blockPictureSrcs
           likes := likesOf mc
           time := timeOf mc
           replies := (b.replyNodes.map extractReply).filter
             (fun r => !(r.author == "") && !(r.content == "")) }

/-- The whole snapshot: map `extractBlock` over the `.parent-comment` blocks
and keep records with non-empty author and content
(`.filter(c => !!c && !!c.author && !!c.content)`). -/
def extractSnapshot (blocks : List ParentBlockDom) : List Comment :=
  (blocks.filterMap extractBlock).filter
    (fun c => !(c.author == "") && !(c.content == ""))

/-! ## Scroll/reveal driver (`page.evaluate` body at lines 713-819) -/

/-- The observable state of one candidate scroll container: computed overflow
styles, geometry, whether the `THE END` marker text occurs inside it, the
`scrollTop` observed after the scroll attempt settles, and whether the scroll
call throws (with its message). -/
structure ContainerInfo where
  overflow : String
  overflowY : String
  scrollHeight : Int
  clientHeight : Int
  scrollTop : Int
  hasEndText : Bool
  topAfterScroll : Int
  scrollErr : Option String
deriving Repr

/-- Scroll-state record returned with a successful scroll attempt. -/
structure ScrollState where
  previousTop : Int
  newTop : Int
  height : Int
  client : Int
  remaining : Int
  scrolled : Bool
deriving Repr

/-- The `ScrollResult` interface of the source. -/
structure ScrollResult where
  reachedEnd : Bool
  message : String
  hasEndText : Bool
  scrollState : Option ScrollState
  scrollErrMsg : Option String
deriving Repr

/-- The scrollability heuristic: `(overflow + overflowY)` contains `scroll` or
`auto`, and `scrollHeight > clientHeight`. -/
def isScrollableB (c : ContainerInfo) : Bool :=
  (containsSub (c.overflow ++ c.overflowY) "scroll" ||
   containsSub (c.overflow ++ c.overflowY) "auto") &&
  c.clientHeight < c.scrollHeight

/-- First candidate container (in selector priority order; `none` entries are
selectors that matched no element) passing the scrollability heuristic. -/
def findScrollContainer : List (Option ContainerInfo) → Option ContainerInfo
  | [] => none
  | none :: rest => findScrollContainer rest
  | some c :: rest => if isScrollableB c then some c else findScrollContainer rest

/-- One scroll step: report reached-end when no scrollable container is found
or when the terminal marker is present; otherwise advance by 500 and report
the before/after offsets (or the caught error). -/
def attemptScroll (dom : List (Option ContainerInfo)) : ScrollResult :=
  match findScrollContainer dom with
  | none =>
    { reachedEnd := true
      message := "No scrollable container found"
      hasEndText := false
      scrollState := none
      scrollErrMsg := none }
  | some c =>
    if c.hasEndText then
      { reachedEnd := true
        message := "THE END text detected in comments dialog"
        hasEndText := true
        scrollState := none
        scrollErrMsg := none }
    else
      match c.scrollErr with
      | some msg =>
        { reachedEnd := false
          message := "Error during scroll attempt"
          hasEndText := false
          scrollState := none
          scrollErrMsg := some msg }
      | none =>
        { reachedEnd := false
          message := if c.scrollTop < c.topAfterScroll then "Scroll successful"
                     else "Scroll may not have worked"
          hasEndText := false
          scrollState := some
            { previousTop := c.scrollTop
              newTop := c.topAfterScroll
              height := c.scrollHeight
              client := c.clientHeight
              remaining := c.scrollHeight - c.scrollTop - c.clientHeight
              scrolled := c.scrollTop < c.topAfterScroll }
          scrollErrMsg := none }

/-! ## Collection loop (`scrollAndCollectAllComments`, lines 599-850) -/

/-- What the page presents during one loop iteration: the comment blocks the
snapshot extractor sees, the scroll-container candidates the scroll step sees,
and whether any `.comment-item` node is rendered after the post-scroll wait. -/
structure EnvStep where
  blocks : List ParentBlockDom
  scrollDom : List (Option ContainerInfo)
  hasCommentNodes : Bool

/-- Result of one loop iteration: the loop either breaks with the accumulated
list or continues with the updated accumulator. -/
inductive IterOut where
  | done (res : List Comment)
  | next (acc : List Comment)
deriving Repr

/-- One iteration of the `while (true)` loop: extract the snapshot, merge it,
break when the total reaches the target, otherwise scroll, break on
reached-end, and break when no comment node is rendered afterwards. -/
def loopIter (commentCount : Nat) (acc : List Comment) (e : EnvStep) : IterOut :=
  let acc2 := mergeStep acc (extractSnapshot e.blocks)
  if commentCount ≤ countTotal acc2 then IterOut.done acc2
  else if (attemptScroll e.scrollDom).reachedEnd then IterOut.done acc2
  else if e.hasCommentNodes then IterOut.next acc2
  else IterOut.done acc2

/-- Run the loop for at most `fuel` iterations starting at iteration index `i`
with accumulator `acc`; `none` means the loop is still running after `fuel`
iterations. -/
def runLoop (commentCount : Nat) (env : Nat → EnvStep) :
    Nat → Nat → List Comment → Option (List Comment)
  | 0, _, _ => none
  | fuel + 1, i, acc =>
    match loopIter commentCount acc (env i) with
    | IterOut.done r => some r
    | IterOut.next acc2 => runLoop commentCount env fuel (i + 1) acc2

/-- The loop of `scrollAndCollectAllComments` terminates on environment `env`
with target `commentCount`: some finite number of iterations suffices. -/
def collectTerminates (commentCount : Nat) (env : Nat → EnvStep) : Prop :=
  ∃ fuel, (runLoop commentCount env fuel 0 []).isSome = true

/-! ## Target-count probe and `getNoteComments` (lines 512-594) -/

/-- The selector list probed for the comment total. -/
def commentCountSelectors : List String :=
  [".chat-wrapper .count", ".comment-wrapper .count", "[class*=comment] .count",
   ".comment-count", ".comment-total", ".total-comments",
   ".comment-header .count", ".comment-header .total"]

/-- DOM state for the probe: the text content of each selector's element in
`commentCountSelectors` order (`none` = element absent), and the number of
rendered `.comment-item`-like nodes used as fallback. -/
structure CountProbeDom where
  selectorTexts : List (Option String)
  renderedCommentCount : Nat

/-- The probe: first selector whose element yields a positive digit-parsed
count wins; otherwise fall back to the rendered comment-node count. -/
def probeCommentCount (d : CountProbeDom) : Nat :=
  match d.selectorTexts.findSome? (fun t? =>
    match t? with
    | some t =>
      match digitsOf t with
      | [] => none
      | ds => if 0 < natOfDigits ds then some (natOfDigits ds) else none
    | none => none) with
  | some n => n
  | none => d.renderedCommentCount

/-- Outcome of a `getNoteComments` call in the model: a result list together
with whether the collection loop was entered, a still-running marker for
exhausted fuel, or a propagated error. -/
inductive FetchOutcome where
  | ok (comments : List Comment) (enteredCollectLoop : Bool)
  | stillRunning
deriving Repr

/-- Page environment for one `getNoteComments` call: the probe DOM seen before
the dialog is opened, and the per-iteration environment of the collection
loop (the pre-collection `scrollAndLoadAllComments` pass only mutates the
page, which the trace already reflects). -/
structure NotePageEnv where
  probe : CountProbeDom
  trace : Nat → EnvStep

/-- `getNoteComments` after navigation: probe the total once, short-circuit to
an empty result when it is `0`, otherwise run the collection loop. -/
def getNoteCommentsModel (env : NotePageEnv) (fuel : Nat) : FetchOutcome :=
  let commentCount := probeCommentCount env.probe
  if commentCount = 0 then FetchOutcome.ok [] false
  else
    match runLoop commentCount env.trace fuel 0 [] with
    | some res => FetchOutcome.ok res true
    | none => FetchOutcome.stillRunning

/-! ## Regex scanners used by the temporal normalizer

Each `fooAt` function decides whether the pattern matches at the head of the
character list (with the greedy-then-backtrack behaviour of the JS engine);
`scanFirst` applies it at every position left to right, which is exactly the
leftmost-match rule of `String.prototype.match`. -/

/-- Try a position-wise matcher at every position of the list, left to right
(JS leftmost-match). -/
def scanFirst {α : Type} (f : List Char → Option α) : List Char → Option α
  | [] => f []
  | c :: cs =>
    match f (c :: cs) with
    | some r => some r
    | none => scanFirst f cs

/-- Match `(\d+)\s*<suffix>` at the head of the list: a maximal digit run,
optional whitespace, then the literal suffix; returns the parsed number.
(The JS engine's backtracking cannot produce any other match here because the
suffix starts with a non-digit, non-space character.) -/
def numThenAt (suffix : List Char) (l : List Char) : Option Nat :=
  match l.takeWhile Char.isDigit with
  | [] => none
  | ds =>
    if isPrefixList suffix ((l.dropWhile Char.isDigit).dropWhile isWsJS) then
      some (natOfDigits ds)
    else none

/-- `timeStr.match(/(\d+)\s*<suffix>/)` with the capture parsed by
`parseInt`. -/
def findNumThen (suffix : String) (s : String) : Option Nat :=
  scanFirst (numThenAt suffix.data) s.data

/-- Two-digit value. -/
def digit2 (a b : Char) : Nat := digitVal a * 10 + digitVal b

/-- Four-digit value. -/
def digit4 (a b c d : Char) : Nat :=
  ((digitVal a * 10 + digitVal b) * 10 + digitVal c) * 10 + digitVal d

/-- Match `(\d{2})-(\d{2})` at the head of the list (month, day captures). -/
def short2At (l : List Char) : Option (Nat × Nat) :=
  match l with
  | a :: b :: '-' :: c :: d :: _ =>
    if a.isDigit && b.isDigit && c.isDigit && d.isDigit then
      some (digit2 a b, digit2 c d)
    else none
  | _ => none

/-- `timeStr.match(/(\d{2})-(\d{2})/)` (the short-date rule of
`convertToStandardDate`). -/
def findShort2 (s : String) : Option (Nat × Nat) :=
  scanFirst short2At s.data

/-- Match `\d{4}-\d{2}-\d{2}` at the head of the list (only the existence of
the match matters to `convertToStandardDate`). -/
def full2At (l : List Char) : Option Unit :=
  match l with
  | a :: b :: c :: d :: '-' :: e :: f :: '-' :: g :: h :: _ =>
    if a.isDigit && b.isDigit && c.isDigit && d.isDigit &&
       e.isDigit && f.isDigit && g.isDigit && h.isDigit then some () else none
  | _ => none

/-- `timeStr.match(/(\d{4})-(\d{2})-(\d{2})/)` as a truthiness test. -/
def hasFull2 (s : String) : Bool :=
  (scanFirst full2At s.data).isSome

/-- Match `(\d{1,2})` at the head of a day position: greedily take two digits,
else one. -/
def day12 (l : List Char) : Option Nat :=
  match l with
  | c :: d :: _ =>
    if c.isDigit then
      if d.isDigit then some (digit2 c d) else some (digitVal c)
    else none
  | [c] => if c.isDigit then some (digitVal c) else none
  | [] => none

/-- Match `(\d{1,2})-` at the head of the list: the JS engine first tries two
digits followed by `-`, then backtracks to one digit followed by `-`. Returns
the month value and the remainder after the dash. -/
def monthDash (l : List Char) : Option (Nat × List Char) :=
  match l with
  | a :: b :: rest =>
    if a.isDigit then
      if b.isDigit then
        match rest with
        | '-' :: rest2 => some (digit2 a b, rest2)
        | _ => none
      else if b = '-' then some (digitVal a, rest)
      else none
    else none
  | _ => none

/-- Match `(\d{1,2})-(\d{1,2})` at the head of the list. -/
def md12At (l : List Char) : Option (Nat × Nat) :=
  match monthDash l with
  | some (m, rest) => (day12 rest).map (fun d => (m, d))
  | none => none

/-- `timeStr.match(/(\d{1,2})-(\d{1,2})/)` (the short-date rule of the
`GetNoteDetail` / `searchNotes` publish-time logic). -/
def findMD12 (s : String) : Option (Nat × Nat) :=
  scanFirst md12At s.data

/-- Match `(\d{4})-(\d{1,2})-(\d{1,2})` at the head of the list. -/
def full12At (l : List Char) : Option (Nat × Nat × Nat) :=
  match l with
  | a :: b :: c :: d :: '-' :: rest =>
    if a.isDigit && b.isDigit && c.isDigit && d.isDigit then
      match monthDash rest with
      | some (m, rest2) => (day12 rest2).map (fun dd => (digit4 a b c d, m, dd))
      | none => none
    else none
  | _ => none

/-- `timeStr.match(/(\d{4})-(\d{1,2})-(\d{1,2})/)`. -/
def findFull12 (s : String) : Option (Nat × Nat × Nat) :=
  scanFirst full12At s.data

/-! ## `convertToStandardDate` (`rednoteTools.ts` lines 63-123) -/

/-- Results of the `Date`-dependent computations of `convertToStandardDate`
(`toISOString().split('T')[0]` of today, yesterday, and the day/month/year
offsets), supplied as an environment so the function stays pure; the claims
under verification only exercise the string-analysis branches. -/
structure DateEnv where
  todayISO : String
  yesterdayISO : String
  daysAgoISO : Nat → String
  monthsAgoISO : Nat → String
  yearsAgoISO : Nat → String
  currentYear : Nat

/-- `convertToStandardDate`: the rule chain of lines 63-123. The short-date
rule `(\d{2})-(\d{2})` is checked before the full-date rule, the full-date
rule returns `timeStr` itself, and an unmatched phrase yields the empty
string (the source comment reads `如果无法解析，返回空字符串`). -/
def convertToStandardDate (env : DateEnv) (timeStr : String) : String :=
  if containsSub timeStr "今天" then env.todayISO
  else if containsSub timeStr "昨天" then env.yesterdayISO
  else
    match findNumThen "天前" timeStr with
    | some n => env.daysAgoISO n
    | none =>
      match findNumThen "个月前" timeStr with
      | some n => env.monthsAgoISO n
      | none =>
        match findNumThen "年前" timeStr with
        | some n => env.yearsAgoISO n
        | none =>
          match findShort2 timeStr with
          | some (m, d) => natToStr env.currentYear ++ "-" ++ pad2 m ++ "-" ++ pad2 d
          | none => if hasFull2 timeStr then timeStr else ""

/-! ## Publish-time normalization of `GetNoteDetail`
(`noteDetail.ts` lines 76-190, duplicated inside `searchNotes`) -/

/-- JS `fullText.split(/\s+/)`: the segments between maximal whitespace runs,
including an empty leading segment when the string starts with whitespace and
an empty trailing segment when it ends with one. -/
def splitWsAux : List Char → Option (List Char) → List String
  | [], some cur => [String.mk cur.reverse]
  | [], none => [""]
  | c :: cs, some cur =>
    if isWsJS c then String.mk cur.reverse :: splitWsAux cs none
    else splitWsAux cs (some (c :: cur))
  | c :: cs, none =>
    if isWsJS c then splitWsAux cs none
    else splitWsAux cs (some [c])

/-- `fullText.split(/\s+/)` on strings (the `some cur` state is the token
being built, `none` means the scan is inside a whitespace run whose preceding
token is already emitted). -/
def splitWsJS (s : String) : List String :=
  splitWsAux s.data (some [])

/-- JS `s.replace(pat, '')` for a literal pattern: remove the first
occurrence of `pat`. -/
def removeFirstList (pat : List Char) : List Char → List Char
  | [] => []
  | c :: cs =>
    if isPrefixList pat (c :: cs) then (c :: cs).drop pat.length
    else c :: removeFirstList pat cs

/-- `s.replace('编辑于', '')` on strings (first occurrence only). -/
def removeFirst (s pat : String) : String :=
  String.mk (removeFirstList pat.data s.data)

/-- The `timeStr` selection of `GetNoteDetail`: take the first
whitespace-separated part; when it is exactly `编辑于` use the second part,
when it merely contains `编辑于` strip that prefix and trim. When `parts`
has a single element equal to `编辑于`, the source reads `parts[1]`, which is
JS `undefined` — modelled as `none` (the subsequent
`timeStr.includes('今天')` then throws a TypeError). The `[]` case is
unreachable: `split(/\s+/)` always returns at least one element. -/
def timeStrOf (fullText : String) : Option String :=
  match splitWsJS fullText with
  | [] => some ""
  | p0 :: rest =>
    if p0 = "编辑于" then rest.head?
    else if containsSub p0 "编辑于" then some (jsTrim (removeFirst p0 "编辑于"))
    else some p0

/-- Results of the `Date`-dependent computations of the publish-time logic
(each branch's formatted output), supplied as an environment. -/
structure PublishEnv where
  todayFmt : String
  yesterdayFmt : String
  daysAgoFmt : Nat → String
  monthsAgoFmt : Nat → String
  yearsAgoFmt : Nat → String
  hoursAgoFmt : String
  minutesAgoFmt : String
  currentYear : Nat

/-- The publish-time rule chain of `GetNoteDetail` (lines 110-184): the
`else if` cascade over `timeStr`, producing `''` when no rule matches. The
`MM-DD` rule `(\d{1,2})-(\d{1,2})` precedes the `YYYY-MM-DD` rule. -/
def publishRuleOutput (env : PublishEnv) (timeStr : String) : String :=
  if containsSub timeStr "今天" then env.todayFmt
  else if containsSub timeStr "昨天" then env.yesterdayFmt
  else
    match findNumThen "天前" timeStr with
    | some n => env.daysAgoFmt n
    | none =>
      match findNumThen "个月前" timeStr with
      | some n => env.monthsAgoFmt n
      | none =>
        match findNumThen "年前" timeStr with
        | some n => env.yearsAgoFmt n
        | none =>
          match findNumThen "小时前" timeStr with
          | some _ => env.hoursAgoFmt
          | none =>
            match findNumThen "分钟前" timeStr with
            | some _ => env.minutesAgoFmt
            | none =>
              match findMD12 timeStr with
              | some (m, d) =>
                natToStr env.currentYear ++ "-" ++ pad2 m ++ "-" ++ pad2 d
              | none =>
                match findFull12 timeStr with
                | some (y, m, d) =>
                  natToStr y ++ "-" ++ pad2 m ++ "-" ++ pad2 d
                | none => ""

/-- The full publish-time normalization of `GetNoteDetail`: run the rule
chain on the extracted `timeStr` and fall back to the original `fullText`
when the result is empty (`if (publishTime === '') publishTime = fullText`).
When `timeStr` is `undefined` (`timeStrOf` is `none`), the source
dereferences it with `.includes` and throws a TypeError, modelled as
`none`. -/
def parsePublishTime (env : PublishEnv) (fullText : String) : Option String :=
  match timeStrOf fullText with
  | none => none
  | some timeStr =>
    let pt := publishRuleOutput env timeStr
    some (if pt = "" then fullText else pt)

/-! ## `extractRedBookUrl` (`rednoteTools.ts` lines 183-201) -/

/-- Case-insensitive literal match (the `i` flag): consume `pat` (given in
lower case) from `l`, returning the consumed original characters and the
rest. -/
def litCI : List Char → List Char → Option (List Char × List Char)
  | [], l => some ([], l)
  | _ :: _, [] => none
  | p :: ps, c :: cs =>
    if c.toLower = p then
      match litCI ps cs with
      | some (m, r) => some (c :: m, r)
      | none => none
    else none

/-- Take a non-empty maximal run of characters satisfying `p` (a greedy
`[...]+` class at the end of a pattern). -/
def takeClass1 (p : Char → Bool) (l : List Char) : Option (List Char × List Char) :=
  match l.takeWhile p with
  | [] => none
  | run => some (run, l.dropWhile p)

/-- Character class `[a-zA-Z0-9\/]` of the xhslink pattern. -/
def isXhsBodyChar (c : Char) : Bool :=
  c.isAlphanum || c = '/'

/-- Character class `[^，\s]` of the xiaohongshu pattern. -/
def isXhmBodyChar (c : Char) : Bool :=
  !(c = '，' || isWsJS c)

/-- Match `https?` case-insensitively at the head of the list: `http`, then a
greedy optional `s`. Returns the consumed characters and the rest. -/
def matchHttpS (l : List Char) : Option (List Char × List Char) :=
  match litCI "http".data l with
  | none => none
  | some (m1, r1) =>
    match r1 with
    | c :: cs => if c.toLower = 's' then some (m1 ++ [c], cs) else some (m1, r1)
    | [] => some (m1, r1)

/-- Match `(https?:\/\/xhslink\.com\/[a-zA-Z0-9\/]+)` (flag `i`) at the head
of the list. The optional `s` needs no backtracking here because the
continuation `://` cannot begin with `s`. -/
def xhsAt (l : List Char) : Option (List Char) :=
  match matchHttpS l with
  | none => none
  | some (m1, r1) =>
    match litCI "://xhslink.com/".data r1 with
    | none => none
    | some (m2, r2) =>
      match takeClass1 isXhsBodyChar r2 with
      | some (m3, _) => some (m1 ++ m2 ++ m3)
      | none => none

/-- The fixed tail of the xiaohongshu pattern after the optional `www.`:
the literal `xiaohongshu.com/` followed by a non-empty greedy `[^，\s]+`
run. -/
def xhmTail (r : List Char) : Option (List Char) :=
  match litCI "xiaohongshu.com/".data r with
  | none => none
  | some (m4, r4) =>
    match takeClass1 isXhmBodyChar r4 with
    | some (m5, _) => some (m4 ++ m5)
    | none => none

/-- Match `(https?:\/\/(?:www\.)?xiaohongshu\.com\/[^，\s]+)` (flag `i`) at
the head of the list. The optional `www.` group is tried greedily first and
backtracked when the tail fails after it. -/
def xhmAt (l : List Char) : Option (List Char) :=
  match matchHttpS l with
  | none => none
  | some (m1, r1) =>
    match litCI "://".data r1 with
    | none => none
    | some (m2, r2) =>
      match litCI "www.".data r2 with
      | some (m3, r3) =>
        match xhmTail r3 with
        | some tail => some (m1 ++ m2 ++ m3 ++ tail)
        | none =>
          match xhmTail r2 with
          | some tail => some (m1 ++ m2 ++ tail)
          | none => none
      | none =>
        match xhmTail r2 with
        | some tail => some (m1 ++ m2 ++ tail)
        | none => none

/-- First (leftmost) match of the xhslink pattern in `s`
(`shareText.match(xhslinkRegex)`). -/
def firstXhsMatch (s : String) : Option String :=
  (scanFirst xhsAt s.data).map String.mk

/-- First (leftmost) match of the xiaohongshu pattern in `s`
(`shareText.match(xiaohongshuRegex)`). -/
def firstXhmMatch (s : String) : Option String :=
  (scanFirst xhmAt s.data).map String.mk

/-- `extractRedBookUrl`: first a xhslink.com match, then a xiaohongshu.com
match, otherwise the share text itself. -/
def extractRedBookUrl (shareText : String) : String :=
  match firstXhsMatch shareText with
  | some m => m
  | none =>
    match firstXhmMatch shareText with
    | some m => m
    | none => shareText

/-! ## Helper lemmas about the merge step -/

/-- The identity-triple comparison is reflexive. -/
lemma tripleEqB_refl (c : Comment) : tripleEqB c c = true := by
  simp [tripleEqB]

/-- The identity-triple comparison is symmetric. -/
lemma tripleEqB_symm (a b : Comment) : tripleEqB a b = tripleEqB b a := by
  rw [Bool.eq_iff_iff]
  simp [tripleEqB, Bool.and_eq_true, beq_iff_eq]
  constructor
  · rintro ⟨⟨h1, h2⟩, h3⟩
    exact ⟨⟨h1.symm, h2.symm⟩, h3.symm⟩
  · rintro ⟨⟨h1, h2⟩, h3⟩
    exact ⟨⟨h1.symm, h2.symm⟩, h3.symm⟩

/-- Every element of the snapshot has its triple present in the merged
accumulator: either it was already in `acc`, or it survived the filter and
was prepended. -/
lemma tripleMemB_mergeStep (acc snap : List Comment) {c : Comment}
    (hc : c ∈ snap) : tripleMemB (mergeStep acc snap) c = true := by
  by_cases h : tripleMemB acc c = true
  · obtain ⟨e, he, hee⟩ := List.any_eq_true.mp h
    exact List.any_eq_true.mpr ⟨e, List.mem_append.mpr (Or.inr he), hee⟩
  · have hfalse : tripleMemB acc c = false := Bool.eq_false_iff.mpr h
    have hmem : c ∈ snap.filter (fun x => !(tripleMemB acc x)) :=
      List.mem_filter.mpr ⟨hc, by simp [hfalse]⟩
    exact List.any_eq_true.mpr ⟨c, List.mem_append.mpr (Or.inl hmem), tripleEqB_refl c⟩

/-- C3 claim statement. Merging the same snapshot a second time adds
nothing: every snapshot element's triple is already present after the first
merge, so the second filter keeps nothing. -/
theorem mergeStep_idempotent (A S : List Comment) :
    mergeStep (mergeStep A S) S = mergeStep A S := by
  have h : S.filter (fun c => !(tripleMemB (mergeStep A S) c)) = [] := by
    rw [List.filter_eq_nil_iff]
    intro c hc
    rw [tripleMemB_mergeStep A S hc]
    simp
  calc mergeStep (mergeStep A S) S
      = S.filter (fun c => !(tripleMemB (mergeStep A S) c)) ++ mergeStep A S := rfl
    _ = mergeStep A S := by rw [h, List.nil_append]

/-- The spec-side membership predicate of the dedup merge: the identity
triple of `c` already exists in `A` (worded from the specification, for
comparison with the source's `tripleMemB`). -/
def TripleInSpec (A : List Comment) (c : Comment) : Prop :=
  ∃ e ∈ A, e.author = c.author ∧ e.content = c.content ∧ e.time = c.time

/-- The source's boolean membership test agrees with the spec-side
predicate. -/
lemma tripleMemB_iff_spec (A : List Comment) (c : Comment) :
    tripleMemB A c = true ↔ TripleInSpec A c := by
  rw [tripleMemB, List.any_eq_true]
  constructor
  · rintro ⟨e, he, hee⟩
    rw [tripleEqB] at hee
    simp only [Bool.and_eq_true, beq_iff_eq] at hee
    exact ⟨e, he, hee.1.1, hee.1.2, hee.2⟩
  · rintro ⟨e, he, h1, h2, h3⟩
    exact ⟨e, he, by simp [tripleEqB, h1, h2, h3]⟩

/-- Membership of an identity triple in a list is decidable. -/
instance decTripleInSpec (A : List Comment) (c : Comment) : Decidable (TripleInSpec A c) :=
  inferInstanceAs (Decidable (∃ e ∈ A, e.author = c.author ∧ e.content = c.content ∧ e.time = c.time))

/-- C4 claim statement. One merge step produces exactly the snapshot minus
the already-present triples (worded from the spec via `TripleInSpec`),
prepended to the accumulator; and the kept items form a sublist of the
snapshot, so their relative order is the snapshot's. -/
theorem mergeStep_spec_shape (A S : List Comment) :
    mergeStep A S = S.filter (fun c => decide (¬ TripleInSpec A c)) ++ A ∧
    (S.filter (fun c => decide (¬ TripleInSpec A c))).Sublist S := by
  constructor
  · unfold mergeStep
    have heq : S.filter (fun c => !(tripleMemB A c)) =
        S.filter (fun c => decide (¬ TripleInSpec A c)) := by
      apply List.filter_congr
      intro c _
      by_cases h : TripleInSpec A c
      · have hb : tripleMemB A c = true := (tripleMemB_iff_spec A c).mpr h
        simp [hb, h]
      · have hb : tripleMemB A c = false :=
          Bool.eq_false_iff.mpr (fun ht => h ((tripleMemB_iff_spec A c).mp ht))
        simp [hb, h]
    rw [heq]
  · exact List.filter_sublist S

/-! ## Duplicate-freedom of the accumulator -/

/-- Triple-duplicate-freedom restricts along sublists. -/
lemma noDupTriplesB_sublist {l1 l2 : List Comment}
    (hsub : l1.Sublist l2) (h : noDupTriplesB l2 = true) : noDupTriplesB l1 = true := by
  induction hsub with
  | slnil => rfl
  | cons a _ ih =>
    rw [noDupTriplesB, Bool.and_eq_true] at h
    exact ih h.2
  | cons₂ a hsub ih =>
    rw [noDupTriplesB, Bool.and_eq_true] at h ⊢
    refine ⟨?_, ih h.2⟩
    rw [Bool.not_eq_true'] at h ⊢
    rw [← Bool.not_eq_true]
    intro h1
    obtain ⟨x, hx, hpx⟩ := List.any_eq_true.mp h1
    have h2 := List.any_eq_true.mpr ⟨x, hsub.subset hx, hpx⟩
    exact Bool.false_ne_true (h.1.symm.trans h2)

/-- Appending two internally duplicate-free lists whose triples do not cross
yields a duplicate-free list. -/
lemma noDupTriplesB_append {l1 l2 : List Comment}
    (h1 : noDupTriplesB l1 = true) (h2 : noDupTriplesB l2 = true)
    (hcross : ∀ a ∈ l1, ∀ b ∈ l2, tripleEqB a b = false) :
    noDupTriplesB (l1 ++ l2) = true := by
  induction l1 with
  | nil => exact h2
  | cons c cs ih =>
    rw [noDupTriplesB, Bool.and_eq_true] at h1
    rw [List.cons_append, noDupTriplesB, Bool.and_eq_true]
    constructor
    · rw [Bool.not_eq_true', List.any_append, Bool.or_eq_false_iff]
      constructor
      · exact Bool.not_eq_true' _ ▸ h1.1
      · rw [← Bool.not_eq_true]
        intro hany
        obtain ⟨x, hx, hpx⟩ := List.any_eq_true.mp hany
        rw [hcross c (List.mem_cons_self c cs) x hx] at hpx
        exact Bool.false_ne_true hpx
    · exact ih h1.2 (fun a ha => hcross a (List.mem_cons_of_mem c ha))

/-- One merge step preserves duplicate-freedom provided the incoming snapshot
is itself duplicate-free. -/
lemma noDupTriplesB_mergeStep {acc snap : List Comment}
    (hacc : noDupTriplesB acc = true) (hsnap : noDupTriplesB snap = true) :
    noDupTriplesB (mergeStep acc snap) = true := by
  apply noDupTriplesB_append
  · exact noDupTriplesB_sublist (List.filter_sublist snap) hsnap
  · exact hacc
  · intro a ha b hb
    have hpa := (List.mem_filter.mp ha).2
    rw [Bool.not_eq_true'] at hpa
    rw [tripleEqB_symm, ← Bool.not_eq_true]
    intro hba
    have hmem : tripleMemB acc a = true := List.any_eq_true.mpr ⟨b, hb, hba⟩
    exact Bool.false_ne_true (hpa.symm.trans hmem)

/-- Fold the merge step over a sequence of snapshots: duplicate-freedom of
the accumulator is maintained whenever every snapshot is internally
duplicate-free. -/
lemma noDupTriplesB_foldl : ∀ (snaps : List (List Comment)) (acc : List Comment),
    noDupTriplesB acc = true → (∀ s ∈ snaps, noDupTriplesB s = true) →
    noDupTriplesB (snaps.foldl mergeStep acc) = true := by
  intro snaps
  induction snaps with
  | nil => intro acc hacc _; exact hacc
  | cons s ss ih =>
    intro acc hacc h
    rw [List.foldl_cons]
    exact ih _ (noDupTriplesB_mergeStep hacc (h s (List.mem_cons_self s ss)))
      (fun t ht => h t (List.mem_cons_of_mem s ht))

/-- A concrete comment record used in counterexamples and witnesses. -/
def comment1 : Comment :=
  { author := "u1", content := "hello", likes := 1, time := "05-01", replies := [] }

/-- A second, distinct comment record. -/
def comment2 : Comment :=
  { author := "u2", content := "hi", likes := 0, time := "05-02", replies := [] }

/-- A DOM comment node extracting to `comment1`. -/
def node1 : NodeDom :=
  { authorText := some "u1"
    contentChildren := some (ContentForest.cons (ContentNode.text "hello") ContentForest.nil)
    likesText := some "1"
    timeText := some "05-01" }

/-- A `.parent-comment` block extracting to `comment1`. -/
def block1 : ParentBlockDom :=
  { mainComment := some node1, blockPictureSrcs := [], replyNodes := [] }

/-- C2 counterexample. A snapshot holding the same record twice (two
identical `.parent-comment` blocks) passes the dedup filter wholesale,
because the filter only compares the snapshot against the accumulator, not
the snapshot against itself: the loop exits with an accumulator containing
two records with the same identity triple. -/
theorem accumulator_duplicate_counterexample :
    runLoop 2 (fun _ => { blocks := [block1, block1], scrollDom := [], hasCommentNodes := true })
        1 0 [] = some [comment1, comment1] ∧
    noDupTriplesB [comment1, comment1] = false := by
  constructor
  · rfl
  · decide

/-- C2 amended claim. For every sequence of snapshots each of which is
internally duplicate-free, the accumulator built by folding the merge step
never contains two records with an identical identity triple. -/
theorem accumulator_noDupTriples (snaps : List (List Comment))
    (h : ∀ s ∈ snaps, noDupTriplesB s = true) :
    noDupTriplesB (snaps.foldl mergeStep []) = true :=
  noDupTriplesB_foldl snaps [] rfl h

/-- C2 amended claim, witness: two duplicate-free snapshots with an
overlapping record merge into a duplicate-free accumulator. -/
theorem accumulator_noDupTriples_witness :
    (∀ s ∈ [[comment1], [comment1, comment2]], noDupTriplesB s = true) ∧
    noDupTriplesB ([[comment1], [comment1, comment2]].foldl mergeStep []) = true :=
  ⟨by decide, accumulator_noDupTriples [[comment1], [comment1, comment2]] (by decide)⟩

/-! ## Termination of the collection loop -/

/-- A scrollable container that never shows the end marker and never moves
(the scroll attempt leaves `scrollTop` unchanged, which the source reports
but does not treat as an exit condition). -/
def stallContainer : ContainerInfo :=
  { overflow := "auto", overflowY := "", scrollHeight := 2000, clientHeight := 600,
    scrollTop := 0, hasEndText := false, topAfterScroll := 0, scrollErr := none }

/-- An iteration environment that forever shows the same single comment, a
scrollable container without the end marker, and rendered comment nodes. -/
def stallStep : EnvStep :=
  { blocks := [block1], scrollDom := [some stallContainer], hasCommentNodes := true }

/-- The constant stalled trace. -/
def stallEnv : Nat → EnvStep := fun _ => stallStep

/-- On the stalled trace with target 5, the first iteration moves the
accumulator from `[]` to `[comment1]`. -/
lemma stallStep_iter_nil : loopIter 5 [] stallStep = IterOut.next [comment1] := by rfl

/-- On the stalled trace with target 5, the accumulator `[comment1]` is a
fixed point: the snapshot is filtered away entirely and no exit condition
fires. -/
lemma stallStep_iter_fixed : loopIter 5 [comment1] stallStep = IterOut.next [comment1] := by rfl

/-- From the fixed point, the loop never finishes, whatever fuel it is
given. -/
lemma stallEnv_stationary (fuel : Nat) : ∀ i, runLoop 5 stallEnv fuel i [comment1] = none := by
  induction fuel with
  | zero => intro i; rfl
  | succ n ih =>
    intro i
    simp only [runLoop, stallEnv]
    rw [stallStep_iter_fixed]
    exact ih (i + 1)

/-- C1 counterexample. On the stalled trace — a scrollable container that
never reaches the end, rendered comment nodes at every iteration, and a
snapshot that never brings the total up to the target 5 — the collection
loop of `scrollAndCollectAllComments` runs forever: no amount of fuel makes
`runLoop` return. -/
theorem collect_loop_divergence : ¬ collectTerminates 5 stallEnv := by
  rintro ⟨fuel, h⟩
  cases fuel with
  | zero => exact Bool.false_ne_true h
  | succ n =>
    have hstep : runLoop 5 stallEnv (n + 1) 0 [] = runLoop 5 stallEnv n 1 [comment1] := by
      simp only [runLoop, stallEnv]
      rw [stallStep_iter_nil]
    rw [hstep, stallEnv_stationary n 1] at h
    exact Bool.false_ne_true h

/-- The loop continues to the next iteration only when the scroll step did
not report reached-end and comment nodes are still rendered. -/
lemma loopIter_next_reveal {cc : Nat} {acc : List Comment} {e : EnvStep} {a2 : List Comment}
    (h : loopIter cc acc e = IterOut.next a2) :
    (attemptScroll e.scrollDom).reachedEnd = false ∧ e.hasCommentNodes = true := by
  simp only [loopIter] at h
  by_cases h1 : cc ≤ countTotal (mergeStep acc (extractSnapshot e.blocks))
  · rw [if_pos h1] at h; cases h
  · rw [if_neg h1] at h
    by_cases h2 : (attemptScroll e.scrollDom).reachedEnd = true
    · rw [if_pos h2] at h; cases h
    · by_cases h3 : e.hasCommentNodes = true
      · exact ⟨Bool.eq_false_iff.mpr h2, h3⟩
      · rw [if_neg h2, if_neg h3] at h; cases h

/-- If, at the iteration reached after `K` more steps, the scroll step
reports reached-end or no comment node is rendered, the loop finishes within
`K + 1` further iterations (it may finish earlier through the count check). -/
lemma runLoop_some_of_end_at (cc : Nat) (env : Nat → EnvStep) :
    ∀ (K i : Nat) (acc : List Comment),
      ((attemptScroll (env (i + K)).scrollDom).reachedEnd = true ∨
        (env (i + K)).hasCommentNodes = false) →
      (runLoop cc env (K + 1) i acc).isSome = true := by
  intro K
  induction K with
  | zero =>
    intro i acc h
    rw [Nat.add_zero] at h
    simp only [runLoop]
    cases hit : loopIter cc acc (env i) with
    | done r => rfl
    | next a2 =>
      obtain ⟨hre, hcn⟩ := loopIter_next_reveal hit
      cases h with
      | inl hl => exact absurd (hre.symm.trans hl) Bool.false_ne_true
      | inr hr => exact absurd (hr.symm.trans hcn) Bool.false_ne_true
  | succ n ih =>
    intro i acc h
    simp only [runLoop]
    cases hit : loopIter cc acc (env i) with
    | done r => rfl
    | next a2 =>
      have harith : i + (n + 1) = (i + 1) + n := by omega
      rw [harith] at h
      exact ih (i + 1) a2 h

/-- C1 amended claim. The loop terminates whenever an exit condition
eventually occurs: if at some iteration `K` the scroll step reports
reached-end (or no comment node is rendered), the loop finishes within
`K + 1` iterations, for every target and snapshot sequence. By
`collect_loop_divergence`, on traces where no exit condition ever holds the
loop runs forever. -/
theorem collect_terminates_of_reveal_end (cc : Nat) (env : Nat → EnvStep) (K : Nat)
    (h : (attemptScroll (env K).scrollDom).reachedEnd = true ∨
      (env K).hasCommentNodes = false) :
    (runLoop cc env (K + 1) 0 []).isSome = true :=
  runLoop_some_of_end_at cc env K 0 [] (by rw [Nat.zero_add]; exact h)

/-- An environment whose scroll step immediately finds no scrollable
container (treated as reached-end). -/
def endEnv : Nat → EnvStep :=
  fun _ => { blocks := [], scrollDom := [], hasCommentNodes := true }

/-- C1 amended claim, witness: with reached-end reported at iteration 0 the
loop finishes within one iteration. -/
theorem collect_terminates_of_reveal_end_witness :
    ((attemptScroll (endEnv 0).scrollDom).reachedEnd = true ∨
      (endEnv 0).hasCommentNodes = false) ∧
    (runLoop 5 endEnv 1 0 []).isSome = true :=
  ⟨Or.inl rfl, collect_terminates_of_reveal_end 5 endEnv 0 (Or.inl rfl)⟩

/-! ## Missing scroll container treated as reached-end -/

/-- When every candidate is absent or fails the scrollability heuristic, the
candidate search comes up empty. -/
lemma findScrollContainer_none {dom : List (Option ContainerInfo)}
    (h : ∀ ci ∈ dom, ci.all (fun c => !(isScrollableB c)) = true) :
    findScrollContainer dom = none := by
  induction dom with
  | nil => rfl
  | cons ci rest ih =>
    cases ci with
    | none => exact ih (fun x hx => h x (List.mem_cons_of_mem none hx))
    | some c =>
      have hc : (!(isScrollableB c)) = true := h (some c) (List.mem_cons_self _ _)
      have hfalse : isScrollableB c = false := Bool.not_eq_true' _ ▸ hc
      rw [findScrollContainer, hfalse]
      exact ih (fun x hx => h x (List.mem_cons_of_mem (some c) hx))

/-- C6 claim statement. When no candidate container satisfies the
scrollability heuristics, the scroll step reports reached-end with no error,
and the loop iteration exits returning the comments accumulated so far
(including the final snapshot's merge) as a normal result. -/
theorem noScrollable_treated_as_end (cc : Nat) (acc : List Comment) (e : EnvStep)
    (h : ∀ ci ∈ e.scrollDom, ci.all (fun c => !(isScrollableB c)) = true) :
    (attemptScroll e.scrollDom).reachedEnd = true ∧
    (attemptScroll e.scrollDom).scrollErrMsg = none ∧
    loopIter cc acc e = IterOut.done (mergeStep acc (extractSnapshot e.blocks)) := by
  have hnone := findScrollContainer_none h
  have hscroll : attemptScroll e.scrollDom =
      { reachedEnd := true, message := "No scrollable container found",
        hasEndText := false, scrollState := none, scrollErrMsg := none } := by
    unfold attemptScroll
    rw [hnone]
  refine ⟨by rw [hscroll], by rw [hscroll], ?_⟩
  simp only [loopIter]
  by_cases h1 : cc ≤ countTotal (mergeStep acc (extractSnapshot e.blocks))
  · rw [if_pos h1]
  · rw [if_neg h1]
    simp [hscroll]

/-- A candidate container failing the scrollability heuristic (static
overflow and content shorter than the viewport). -/
def plainContainer : ContainerInfo :=
  { overflow := "visible", overflowY := "visible", scrollHeight := 400,
    clientHeight := 600, scrollTop := 0, hasEndText := false,
    topAfterScroll := 0, scrollErr := none }

/-- An iteration environment with one absent candidate and one
non-scrollable candidate. -/
def noScrollStep : EnvStep :=
  { blocks := [block1], scrollDom := [none, some plainContainer], hasCommentNodes := true }

/-- C6 claim, witness: on the concrete non-scrollable environment the loop
iteration exits with the merged accumulator. -/
theorem noScrollable_treated_as_end_witness :
    (∀ ci ∈ noScrollStep.scrollDom, ci.all (fun c => !(isScrollableB c)) = true) ∧
    loopIter 99 [] noScrollStep = IterOut.done (mergeStep [] (extractSnapshot noScrollStep.blocks)) :=
  ⟨by decide, (noScrollable_treated_as_end 99 [] noScrollStep (by decide)).2.2⟩

/-! ## Zero-probe short circuit of `getNoteComments` -/

/-- C5 claim statement. When the up-front target-count probe yields 0,
`getNoteComments` returns an empty result list without error and without
entering the collection loop. -/
theorem probe_zero_short_circuit (env : NotePageEnv) (fuel : Nat)
    (h : probeCommentCount env.probe = 0) :
    getNoteCommentsModel env fuel = FetchOutcome.ok [] false := by
  simp [getNoteCommentsModel, h]

/-- A probe DOM on which every count selector fails (one absent, one without
digits, one parsing to zero) and no comment node is rendered. -/
def emptyProbeEnv : NotePageEnv :=
  { probe := { selectorTexts := [none, some "暂无评论", some "0"], renderedCommentCount := 0 }
    trace := endEnv }

/-- C5 claim, witness: the concrete zero-yield probe short-circuits. -/
theorem probe_zero_short_circuit_witness :
    probeCommentCount emptyProbeEnv.probe = 0 ∧
    getNoteCommentsModel emptyProbeEnv 7 = FetchOutcome.ok [] false :=
  ⟨by decide, probe_zero_short_circuit emptyProbeEnv 7 (by decide)⟩

/-! ## The temporal normalizer on full dates and unparsable phrases -/

/-- A sample date environment with the clock in year 2025 (the environment
only supplies the `Date`-dependent branch outputs, which the inputs below
never reach). -/
def sampleDateEnv : DateEnv :=
  { todayISO := "2025-10-12", yesterdayISO := "2025-10-11",
    daysAgoISO := fun _ => "2025-10-01", monthsAgoISO := fun _ => "2025-09-12",
    yearsAgoISO := fun _ => "2024-10-12", currentYear := 2025 }

/-- A sample publish-time environment with the clock in year 2025. -/
def samplePublishEnv : PublishEnv :=
  { todayFmt := "2025-10-12", yesterdayFmt := "2025-10-11",
    daysAgoFmt := fun _ => "2025-10-01", monthsAgoFmt := fun _ => "2025-09-12",
    yearsAgoFmt := fun _ => "2024-10-12", hoursAgoFmt := "2025-10-12",
    minutesAgoFmt := "2025-10-12", currentYear := 2025 }

/-- C7 evaluation at the failing input. On `编辑于 2023-02-03`, both the
`GetNoteDetail` publish-time logic and `convertToStandardDate` emit
`2025-23-02` (with the clock in 2025): the unanchored short-date rule
matches the `23-02` inside the year and shadows the full-date rule, so the
output is not the claimed `2023-02-03`. -/
theorem fullDate_shadowed_by_shortDate_bug :
    parsePublishTime samplePublishEnv "编辑于 2023-02-03" = some "2025-23-02" ∧
    convertToStandardDate sampleDateEnv "编辑于 2023-02-03" = "2025-23-02" ∧
    ("2025-23-02" : String) ≠ "2023-02-03" :=
  ⟨by decide, by decide, by decide⟩

/-- C8 counterexample. `convertToStandardDate` maps the rule-free phrase
`置顶` to the empty string, not to the phrase itself. -/
theorem convert_unparsable_counterexample :
    convertToStandardDate sampleDateEnv "置顶" = "" ∧ ("" : String) ≠ "置顶" :=
  ⟨by decide, by decide⟩

/-- No rule of the `GetNoteDetail` publish-time chain matches the given
`timeStr`. -/
def NoPublishRuleMatches (timeStr : String) : Prop :=
  containsSub timeStr "今天" = false ∧ containsSub timeStr "昨天" = false ∧
  findNumThen "天前" timeStr = none ∧ findNumThen "个月前" timeStr = none ∧
  findNumThen "年前" timeStr = none ∧ findNumThen "小时前" timeStr = none ∧
  findNumThen "分钟前" timeStr = none ∧ findMD12 timeStr = none ∧
  findFull12 timeStr = none

/-- No rule of the `convertToStandardDate` chain matches the given
`timeStr`. -/
def NoConvertRuleMatches (timeStr : String) : Prop :=
  containsSub timeStr "今天" = false ∧ containsSub timeStr "昨天" = false ∧
  findNumThen "天前" timeStr = none ∧ findNumThen "个月前" timeStr = none ∧
  findNumThen "年前" timeStr = none ∧ findShort2 timeStr = none ∧
  hasFull2 timeStr = false

/-- Rule-freedom of a phrase for the publish-time chain is decidable. -/
instance decNoPublishRuleMatches (ts : String) : Decidable (NoPublishRuleMatches ts) := by
  unfold NoPublishRuleMatches
  infer_instance

/-- Rule-freedom of a phrase for `convertToStandardDate` is decidable. -/
instance decNoConvertRuleMatches (ts : String) : Decidable (NoConvertRuleMatches ts) := by
  unfold NoConvertRuleMatches
  infer_instance

/-- C8 amended claim. For phrases whose `timeStr` is defined and matched by
no rule, the `GetNoteDetail` publish-time normalization returns the original
phrase verbatim without error, while the standalone `convertToStandardDate`
helper instead returns the empty string; the one exception on the
`GetNoteDetail` side is a phrase that is exactly `编辑于` with no second
token, where `timeStr` is `undefined` and the source throws a TypeError
instead of falling back. -/
theorem unparsable_phrase_fallback (penv : PublishEnv) (denv : DateEnv)
    (fullText ts timeStr : String)
    (h0 : timeStrOf fullText = some ts)
    (h1 : NoPublishRuleMatches ts)
    (h2 : NoConvertRuleMatches timeStr) :
    parsePublishTime penv fullText = some fullText ∧
    convertToStandardDate denv timeStr = "" ∧
    parsePublishTime penv "编辑于" = none := by
  refine ⟨?_, ?_, ?_⟩
  · obtain ⟨a, b, c, d, e, f, g, hmd, hfull⟩ := h1
    have hout : publishRuleOutput penv ts = "" := by
      unfold publishRuleOutput
      rw [a, b, c, d, e, f, g, hmd, hfull]
      rfl
    unfold parsePublishTime
    rw [h0]
    simp only [] 
    rw [hout]
    rfl
  · obtain ⟨a, b, c, d, e, hs, hf⟩ := h2
    unfold convertToStandardDate
    rw [a, b, c, d, e, hs, hf]
    rfl
  · rfl

/-- C8 amended claim, witness: the phrase `置顶` has a defined `timeStr`
matching no rule, survives the publish-time normalization verbatim, is
mapped to the empty string by `convertToStandardDate`, and the bare `编辑于`
phrase hits the TypeError path. -/
theorem unparsable_phrase_fallback_witness :
    timeStrOf "置顶" = some "置顶" ∧ NoPublishRuleMatches "置顶" ∧
    NoConvertRuleMatches "置顶" ∧
    parsePublishTime samplePublishEnv "置顶" = some "置顶" ∧
    convertToStandardDate sampleDateEnv "置顶" = "" ∧
    parsePublishTime samplePublishEnv "编辑于" = none := by
  refine ⟨by decide, by decide, by decide, ?_, ?_, ?_⟩
  · exact (unparsable_phrase_fallback samplePublishEnv sampleDateEnv "置顶" "置顶" "置顶"
      (by decide) (by decide) (by decide)).1
  · exact (unparsable_phrase_fallback samplePublishEnv sampleDateEnv "置顶" "置顶" "置顶"
      (by decide) (by decide) (by decide)).2.1
  · exact (unparsable_phrase_fallback samplePublishEnv sampleDateEnv "置顶" "置顶" "置顶"
      (by decide) (by decide) (by decide)).2.2

/-! ## Asset-only comment content -/

/-- A comment node with empty extracted text. -/
def assetNode : NodeDom :=
  { authorText := some "u3", contentChildren := some ContentForest.nil,
    likesText := some "0", timeText := some "05-03" }

/-- A block whose main comment has empty text and one picture with a
source. -/
def assetBlock : ParentBlockDom :=
  { mainComment := some assetNode, blockPictureSrcs := [some "p.webp"], replyNodes := [] }

/-- C9 counterexample. A comment node with empty text and one image asset
carrying a `src` yields content `[image:p.webp]` — the appended marker alone
— not the sentinel `[图片评论]` and not the sentinel followed by the marker:
the source substitutes the sentinel only when the content is still blank
after the markers are appended. -/
theorem asset_only_content_counterexample :
    extractSnapshot [assetBlock] =
      [{ author := "u3", content := "[image:p.webp]", likes := 0, time := "05-03", replies := [] }] ∧
    ("[image:p.webp]" : String) ≠ "[图片评论]" ++ "[image:p.webp]" ∧
    ("[image:p.webp]" : String) ≠ "[图片评论]" :=
  ⟨by decide, by decide, by decide⟩

/-- Folding the image-marker append over more pictures decomposes over the
initial string. -/
lemma appendImageMarkers_data : ∀ (pics : List (Option String)) (init : String),
    (appendImageMarkers init pics).data = init.data ++ (imageMarkers pics).data := by
  intro pics
  induction pics with
  | nil => intro init; simp [appendImageMarkers, imageMarkers]
  | cons p ps ih =>
    intro init
    cases p with
    | none =>
      show (appendImageMarkers init ps).data = init.data ++ (appendImageMarkers "" ps).data
      rw [ih init, ih ""]
      rfl
    | some s =>
      show (appendImageMarkers (init ++ "[image:" ++ s ++ "]") ps).data =
        init.data ++ (appendImageMarkers ("" ++ "[image:" ++ s ++ "]") ps).data
      rw [ih (init ++ "[image:" ++ s ++ "]"), ih ("" ++ "[image:" ++ s ++ "]")]
      simp [String.data_append, List.append_assoc]

/-- The marker string of a picture list headed by a `src`-carrying image
starts with `[i`. -/
lemma imageMarkers_cons_some (s : String) (ps : List (Option String)) :
    ∃ t, (imageMarkers (some s :: ps)).data = '[' :: 'i' :: t := by
  refine ⟨"mage:".data ++ s.data ++ "]".data ++ (imageMarkers ps).data, ?_⟩
  show (appendImageMarkers ("" ++ "[image:" ++ s ++ "]") ps).data = _
  rw [appendImageMarkers_data ps ("" ++ "[image:" ++ s ++ "]")]
  simp [String.data_append, List.append_assoc]

/-- Pictures without a `src` contribute no marker. -/
lemma imageMarkers_cons_none (ps : List (Option String)) :
    imageMarkers (none :: ps) = imageMarkers ps := rfl

/-- A picture list containing a `src`-carrying image has a marker string
starting with `[i`. -/
lemma imageMarkers_head_of_mem : ∀ {pics : List (Option String)} {s : String},
    some s ∈ pics → ∃ t, (imageMarkers pics).data = '[' :: 'i' :: t := by
  intro pics
  induction pics with
  | nil => intro s h; cases h
  | cons p ps ih =>
    intro s h
    cases p with
    | none =>
      rw [imageMarkers_cons_none]
      rcases List.mem_cons.mp h with h1 | h2
      · cases h1
      · exact ih h2
    | some s2 => exact imageMarkers_cons_some s2 ps

/-- A string whose first character is not whitespace does not trim to the
empty string. -/
lemma jsTrim_ne_empty_of_head {s : String} {c : Char} {t : List Char}
    (hc : isWsJS c = false) (h : s.data = c :: t) : jsTrim s ≠ "" := by
  intro hcon
  have hdata : (jsTrim s).data = [] := by rw [hcon]
  unfold jsTrim at hdata
  rw [h] at hdata
  rw [List.dropWhile_cons] at hdata
  rw [hc] at hdata
  simp only [if_neg] at hdata
  rw [List.reverse_eq_nil_iff, List.dropWhile_eq_nil_iff] at hdata
  have hcmem := hdata c (List.mem_reverse.mpr (List.mem_cons_self c t))
  exact Bool.false_ne_true (hc.symm.trans hcmem)

/-- C9 amended claim. For a comment node whose extracted text is empty but
which has at least one image asset child, the produced content is never the
empty string: it equals exactly the appended image markers whenever at least
one image carries a `src`, and it equals the sentinel `[图片评论]` exactly
when no marker could be appended (no image has a `src`); the record is kept
by the snapshot filter whenever its author is non-empty. -/
theorem asset_only_content_amended (mc : NodeDom) (pics : List (Option String))
    (reps : List ReplyDom)
    (htext : contentTextOf mc.contentChildren = "")
    (hpics : pics ≠ [])
    (hauthor : authorOf mc ≠ "") :
    buildContent mc.contentChildren pics ≠ "" ∧
    ((∃ s, some s ∈ pics) → buildContent mc.contentChildren pics = imageMarkers pics) ∧
    (imageMarkers pics = "" → buildContent mc.contentChildren pics = "[图片评论]") ∧
    (buildContent mc.contentChildren pics = "[图片评论]" → ∀ s, ¬ some s ∈ pics) ∧
    ∃ r, extractSnapshot [⟨some mc, pics, reps⟩] = [r] ∧
      r.content = buildContent mc.contentChildren pics ∧ r.author = authorOf mc := by
  have hlen : 0 < pics.length := by
    cases pics with
    | nil => exact absurd rfl hpics
    | cons p ps => exact Nat.succ_pos _
  have hmarkers : appendImageMarkers (contentTextOf mc.contentChildren) pics = imageMarkers pics := by
    rw [htext]; rfl
  have hbuild : buildContent mc.contentChildren pics =
      if jsTrim (imageMarkers pics) = "" ∧ 0 < pics.length then "[图片评论]"
      else imageMarkers pics := by
    unfold buildContent
    rw [hmarkers]
  have htrim_of_mem : ∀ s, some s ∈ pics → jsTrim (imageMarkers pics) ≠ "" := by
    intro s hmem
    obtain ⟨t, ht⟩ := imageMarkers_head_of_mem hmem
    exact jsTrim_ne_empty_of_head (by decide) ht
  have hof_mem : (∃ s, some s ∈ pics) → buildContent mc.contentChildren pics = imageMarkers pics := by
    rintro ⟨s, hmem⟩
    rw [hbuild]
    exact if_neg (fun hc => htrim_of_mem s hmem hc.1)
  have hne : buildContent mc.contentChildren pics ≠ "" := by
    rw [hbuild]
    by_cases hc : jsTrim (imageMarkers pics) = "" ∧ 0 < pics.length
    · rw [if_pos hc]; decide
    · rw [if_neg hc]
      intro hmm
      exact hc ⟨by rw [hmm]; rfl, hlen⟩
  refine ⟨hne, hof_mem, ?_, ?_, ?_⟩
  · intro hm
    rw [hbuild, if_pos ⟨by rw [hm]; rfl, hlen⟩]
  · intro hsent s hmem
    have hme := hof_mem ⟨s, hmem⟩
    rw [hsent] at hme
    obtain ⟨t, ht⟩ := imageMarkers_head_of_mem hmem
    rw [← hme] at ht
    have hch : ('图' : Char) = 'i' := by
      have := List.head_eq_of_cons_eq (List.tail_eq_of_cons_eq ht)
      exact this
    exact absurd hch (by decide)
  · refine Exists.intro
      { author := authorOf mc
        content := buildContent mc.contentChildren pics
        likes := likesOf mc
        time := timeOf mc
        replies := (reps.map extractReply).filter
          (fun r => !(r.author == "") && !(r.content == "")) }
      ⟨?_, rfl, rfl⟩
    have ha : (authorOf mc == "") = false := beq_eq_false_iff_ne.mpr hauthor
    have hcn : (buildContent mc.contentChildren pics == "") = false := beq_eq_false_iff_ne.mpr hne
    unfold extractSnapshot
    rw [List.filterMap]
    simp only [extractBlock]
    rw [List.filterMap]
    simp only [List.filter, ha, hcn]
    rfl

/-- C9 amended claim, witness: the concrete asset-only node is kept with
marker content. -/
theorem asset_only_content_amended_witness :
    contentTextOf assetNode.contentChildren = "" ∧
    ([some "p.webp"] : List (Option String)) ≠ [] ∧
    authorOf assetNode ≠ "" ∧
    (buildContent assetNode.contentChildren [some "p.webp"] ≠ "" ∧
      ((∃ s, some s ∈ ([some "p.webp"] : List (Option String))) →
        buildContent assetNode.contentChildren [some "p.webp"] = imageMarkers [some "p.webp"]) ∧
      (imageMarkers [some "p.webp"] = "" →
        buildContent assetNode.contentChildren [some "p.webp"] = "[图片评论]") ∧
      (buildContent assetNode.contentChildren [some "p.webp"] = "[图片评论]" →
        ∀ s, ¬ some s ∈ ([some "p.webp"] : List (Option String))) ∧
      ∃ r, extractSnapshot [⟨some assetNode, [some "p.webp"], []⟩] = [r] ∧
        r.content = buildContent assetNode.contentChildren [some "p.webp"] ∧
        r.author = authorOf assetNode) :=
  ⟨by decide, by decide, by decide,
    asset_only_content_amended assetNode [some "p.webp"] [] (by decide) (by decide) (by decide)⟩

/-! ## Properties of the URL matchers -/

/-- A successful literal match splits the input into the consumed characters
and the rest. -/
lemma litCI_eq_append : ∀ (pat l m r : List Char), litCI pat l = some (m, r) → l = m ++ r := by
  intro pat
  induction pat with
  | nil =>
    intro l m r h
    simp only [litCI] at h
    have h2 := Option.some.inj h
    injection h2 with hm hr
    subst hm; subst hr
    rfl
  | cons p ps ih =>
    intro l m r h
    cases l with
    | nil => exact Option.noConfusion h
    | cons c cs =>
      simp only [litCI] at h
      by_cases hc : c.toLower = p
      · rw [if_pos hc] at h
        cases hlit : litCI ps cs with
        | none => rw [hlit] at h; exact Option.noConfusion h
        | some mr =>
          rw [hlit] at h
          obtain ⟨m2, r2⟩ := mr
          have h2 := Option.some.inj h
          injection h2 with hm hr
          subst hm; subst hr
          rw [List.cons_append, ← ih cs m2 r2 hlit]
      · rw [if_neg hc] at h; exact Option.noConfusion h

/-- A successful match of a non-empty literal consumes at least one
character. -/
lemma litCI_ne_nil : ∀ (pat l m r : List Char), pat ≠ [] → litCI pat l = some (m, r) → m ≠ [] := by
  intro pat l m r hpat h
  cases pat with
  | nil => exact absurd rfl hpat
  | cons p ps =>
    cases l with
    | nil => exact Option.noConfusion h
    | cons c cs =>
      simp only [litCI] at h
      by_cases hc : c.toLower = p
      · rw [if_pos hc] at h
        cases hlit : litCI ps cs with
        | none => rw [hlit] at h; exact Option.noConfusion h
        | some mr =>
          rw [hlit] at h
          obtain ⟨m2, r2⟩ := mr
          have h2 := Option.some.inj h
          injection h2 with hm hr
          subst hm
          simp
      · rw [if_neg hc] at h; exact Option.noConfusion h

/-- A successful greedy class run splits the input and is non-empty. -/
lemma takeClass1_props {p : Char → Bool} {l run rest : List Char}
    (h : takeClass1 p l = some (run, rest)) : l = run ++ rest ∧ run ≠ [] := by
  unfold takeClass1 at h
  cases htw : l.takeWhile p with
  | nil => rw [htw] at h; exact Option.noConfusion h
  | cons c cs =>
    rw [htw] at h
    have h2 := Option.some.inj h
    injection h2 with hm hr
    subst hm; subst hr
    constructor
    · rw [← htw]
      exact (List.takeWhile_append_dropWhile p l).symm
    · simp

/-- A successful `https?` match splits the input and is non-empty. -/
lemma matchHttpS_props {l m r : List Char} (h : matchHttpS l = some (m, r)) :
    l = m ++ r ∧ m ≠ [] := by
  unfold matchHttpS at h
  cases hlit : litCI "http".data l with
  | none => rw [hlit] at h; exact Option.noConfusion h
  | some mr =>
    rw [hlit] at h
    obtain ⟨m1, r1⟩ := mr
    simp only [] at h
    have happ : l = m1 ++ r1 := litCI_eq_append _ _ _ _ hlit
    have hne : m1 ≠ [] := litCI_ne_nil _ _ _ _ (by decide) hlit
    cases r1 with
    | nil =>
      have h2 := Option.some.inj h
      injection h2 with hm hr
      subst hm; subst hr
      exact ⟨happ, hne⟩
    | cons c cs =>
      simp only [] at h
      by_cases hs : c.toLower = 's'
      · rw [if_pos hs] at h
        have h2 := Option.some.inj h
        injection h2 with hm hr
        subst hm; subst hr
        constructor
        · rw [happ, List.append_assoc]
          rfl
        · intro hcon
          exact hne (List.append_eq_nil.mp hcon).1
      · rw [if_neg hs] at h
        have h2 := Option.some.inj h
        injection h2 with hm hr
        subst hm; subst hr
        exact ⟨happ, hne⟩

/-- A successful xhslink match at a position is a non-empty prefix of that
position's suffix. -/
lemma xhsAt_props {l m : List Char} (h : xhsAt l = some m) :
    (∃ r, l = m ++ r) ∧ m ≠ [] := by
  unfold xhsAt at h
  cases hh : matchHttpS l with
  | none => rw [hh] at h; exact Option.noConfusion h
  | some mr1 =>
    rw [hh] at h
    obtain ⟨m1, r1⟩ := mr1
    simp only [] at h
    obtain ⟨happ1, hne1⟩ := matchHttpS_props hh
    cases hl : litCI "://xhslink.com/".data r1 with
    | none => rw [hl] at h; exact Option.noConfusion h
    | some mr2 =>
      rw [hl] at h
      obtain ⟨m2, r2⟩ := mr2
      simp only [] at h
      have happ2 : r1 = m2 ++ r2 := litCI_eq_append _ _ _ _ hl
      cases ht : takeClass1 isXhsBodyChar r2 with
      | none => rw [ht] at h; exact Option.noConfusion h
      | some mr3 =>
        rw [ht] at h
        obtain ⟨m3, rest⟩ := mr3
        simp only [] at h
        obtain ⟨happ3, _⟩ := takeClass1_props ht
        have hm := Option.some.inj h
        subst hm
        constructor
        · refine ⟨rest, ?_⟩
          rw [happ1, happ2, happ3]
          simp [List.append_assoc]
        · intro hcon
          exact hne1 (List.append_eq_nil.mp (List.append_eq_nil.mp hcon).1).1

/-- A successful xiaohongshu-tail match is a prefix of its input. -/
lemma xhmTail_props {r tail : List Char} (h : xhmTail r = some tail) :
    ∃ rest, r = tail ++ rest := by
  unfold xhmTail at h
  cases hl : litCI "xiaohongshu.com/".data r with
  | none => rw [hl] at h; exact Option.noConfusion h
  | some mr =>
    rw [hl] at h
    obtain ⟨m4, r4⟩ := mr
    simp only [] at h
    have happ4 : r = m4 ++ r4 := litCI_eq_append _ _ _ _ hl
    cases ht : takeClass1 isXhmBodyChar r4 with
    | none => rw [ht] at h; exact Option.noConfusion h
    | some mr5 =>
      rw [ht] at h
      obtain ⟨m5, rest5⟩ := mr5
      simp only [] at h
      obtain ⟨happ5, _⟩ := takeClass1_props ht
      have hm := Option.some.inj h
      subst hm
      refine ⟨rest5, ?_⟩
      rw [happ4, happ5]
      simp [List.append_assoc]

/-- A successful xiaohongshu match at a position is a non-empty prefix of
that position's suffix. -/
lemma xhmAt_props {l m : List Char} (h : xhmAt l = some m) :
    (∃ r, l = m ++ r) ∧ m ≠ [] := by
  unfold xhmAt at h
  cases hh : matchHttpS l with
  | none => rw [hh] at h; exact Option.noConfusion h
  | some mr1 =>
    rw [hh] at h
    obtain ⟨m1, r1⟩ := mr1
    simp only [] at h
    obtain ⟨happ1, hne1⟩ := matchHttpS_props hh
    cases hl : litCI "://".data r1 with
    | none => rw [hl] at h; exact Option.noConfusion h
    | some mr2 =>
      rw [hl] at h
      obtain ⟨m2, r2⟩ := mr2
      simp only [] at h
      have happ2 : r1 = m2 ++ r2 := litCI_eq_append _ _ _ _ hl
      cases hw : litCI "www.".data r2 with
      | some mr3 =>
        rw [hw] at h
        obtain ⟨m3, r3⟩ := mr3
        simp only [] at h
        have happ3 : r2 = m3 ++ r3 := litCI_eq_append _ _ _ _ hw
        cases ht3 : xhmTail r3 with
        | some tail =>
          rw [ht3] at h
          obtain ⟨rest, happt⟩ := xhmTail_props ht3
          have hm := Option.some.inj h
          subst hm
          constructor
          · refine ⟨rest, ?_⟩
            rw [happ1, happ2, happ3, happt]
            simp [List.append_assoc]
          · intro hcon
            exact hne1 (List.append_eq_nil.mp
              (List.append_eq_nil.mp (List.append_eq_nil.mp hcon).1).1).1
        | none =>
          rw [ht3] at h
          cases ht2 : xhmTail r2 with
          | some tail =>
            rw [ht2] at h
            obtain ⟨rest, happt⟩ := xhmTail_props ht2
            have hm := Option.some.inj h
            subst hm
            constructor
            · refine ⟨rest, ?_⟩
              rw [happ1, happ2, happt]
              simp [List.append_assoc]
            · intro hcon
              exact hne1 (List.append_eq_nil.mp (List.append_eq_nil.mp hcon).1).1
          | none => rw [ht2] at h; exact Option.noConfusion h
      | none =>
        rw [hw] at h
        cases ht2 : xhmTail r2 with
        | some tail =>
          rw [ht2] at h
          obtain ⟨rest, happt⟩ := xhmTail_props ht2
          have hm := Option.some.inj h
          subst hm
          constructor
          · refine ⟨rest, ?_⟩
            rw [happ1, happ2, happt]
            simp [List.append_assoc]
          · intro hcon
            exact hne1 (List.append_eq_nil.mp (List.append_eq_nil.mp hcon).1).1
        | none => rw [ht2] at h; exact Option.noConfusion h

/-- A successful leftmost scan decomposes the input around the matching
position. -/
lemma scanFirst_some_split {α : Type} {f : List Char → Option α} :
    ∀ {l : List Char} {a : α}, scanFirst f l = some a →
      ∃ pre suf, l = pre ++ suf ∧ f suf = some a := by
  intro l
  induction l with
  | nil => intro a h; exact ⟨[], [], rfl, h⟩
  | cons c cs ih =>
    intro a h
    simp only [scanFirst] at h
    cases hf : f (c :: cs) with
    | some r =>
      rw [hf] at h
      exact ⟨[], c :: cs, rfl, hf.trans h⟩
    | none =>
      rw [hf] at h
      obtain ⟨pre, suf, heq, hfs⟩ := ih h
      exact ⟨c :: pre, suf, by rw [heq]; rfl, hfs⟩

/-- A successful first xhslink match is a non-empty substring of the
input. -/
lemma firstXhsMatch_props {s m : String} (h : firstXhsMatch s = some m) :
    m ≠ "" ∧ ∃ pre post, s.data = pre ++ m.data ++ post := by
  unfold firstXhsMatch at h
  cases hscan : scanFirst xhsAt s.data with
  | none => rw [hscan] at h; exact Option.noConfusion h
  | some ml =>
    rw [hscan] at h
    have hm : m = String.mk ml := (Option.some.inj h).symm
    obtain ⟨pre, suf, heq, hat⟩ := scanFirst_some_split hscan
    obtain ⟨⟨r, hsuf⟩, hne⟩ := xhsAt_props hat
    constructor
    · intro hcon
      apply hne
      have hdata : m.data = [] := by rw [hcon]
      rw [hm] at hdata
      exact hdata
    · refine ⟨pre, r, ?_⟩
      rw [heq, hsuf, hm]
      simp [List.append_assoc]

/-- A successful first xiaohongshu match is a non-empty substring of the
input. -/
lemma firstXhmMatch_props {s m : String} (h : firstXhmMatch s = some m) :
    m ≠ "" ∧ ∃ pre post, s.data = pre ++ m.data ++ post := by
  unfold firstXhmMatch at h
  cases hscan : scanFirst xhmAt s.data with
  | none => rw [hscan] at h; exact Option.noConfusion h
  | some ml =>
    rw [hscan] at h
    have hm : m = String.mk ml := (Option.some.inj h).symm
    obtain ⟨pre, suf, heq, hat⟩ := scanFirst_some_split hscan
    obtain ⟨⟨r, hsuf⟩, hne⟩ := xhmAt_props hat
    constructor
    · intro hcon
      apply hne
      have hdata : m.data = [] := by rw [hcon]
      rw [hm] at hdata
      exact hdata
    · refine ⟨pre, r, ?_⟩
      rw [heq, hsuf, hm]
      simp [List.append_assoc]

/-- C10 claim statement. `extractRedBookUrl` returns the first xhslink.com
match when one exists, otherwise the first xiaohongshu.com match when one
exists, otherwise the share text unchanged; its result is never empty for
non-empty input, and is always a contiguous substring of the input. -/
theorem extractRedBookUrl_spec (s : String) :
    (∀ m, firstXhsMatch s = some m → extractRedBookUrl s = m) ∧
    (∀ m, firstXhsMatch s = none → firstXhmMatch s = some m → extractRedBookUrl s = m) ∧
    (firstXhsMatch s = none → firstXhmMatch s = none → extractRedBookUrl s = s) ∧
    (s ≠ "" → extractRedBookUrl s ≠ "") ∧
    (∃ pre post, s.data = pre ++ (extractRedBookUrl s).data ++ post) := by
  refine ⟨?_, ?_, ?_, ?_, ?_⟩
  · intro m hm
    unfold extractRedBookUrl
    rw [hm]
  · intro m h0 hm
    unfold extractRedBookUrl
    rw [h0, hm]
  · intro h0 h1
    unfold extractRedBookUrl
    rw [h0, h1]
  · intro hs
    cases hxs : firstXhsMatch s with
    | some m =>
      have : extractRedBookUrl s = m := by unfold extractRedBookUrl; rw [hxs]
      rw [this]
      exact (firstXhsMatch_props hxs).1
    | none =>
      cases hxm : firstXhmMatch s with
      | some m =>
        have : extractRedBookUrl s = m := by unfold extractRedBookUrl; rw [hxs, hxm]
        rw [this]
        exact (firstXhmMatch_props hxm).1
      | none =>
        have : extractRedBookUrl s = s := by unfold extractRedBookUrl; rw [hxs, hxm]
        rw [this]
        exact hs
  · cases hxs : firstXhsMatch s with
    | some m =>
      have he : extractRedBookUrl s = m := by unfold extractRedBookUrl; rw [hxs]
      rw [he]
      exact (firstXhsMatch_props hxs).2
    | none =>
      cases hxm : firstXhmMatch s with
      | some m =>
        have he : extractRedBookUrl s = m := by unfold extractRedBookUrl; rw [hxs, hxm]
        rw [he]
        exact (firstXhmMatch_props hxm).2
      | none =>
        have he : extractRedBookUrl s = s := by unfold extractRedBookUrl; rw [hxs, hxm]
        rw [he]
        exact ⟨[], [], by simp⟩

/-- C10 claim, witness: on a share text embedding an xhslink URL the
extractor returns a non-empty result. -/
theorem extractRedBookUrl_spec_witness :
    ("看 http://xhslink.com/a/B9 好" : String) ≠ "" ∧
    extractRedBookUrl "看 http://xhslink.com/a/B9 好" ≠ "" :=
  ⟨by decide, (extractRedBookUrl_spec "看 http://xhslink.com/a/B9 好").2.2.2.1 (by decide)⟩
